import Mathlib

/-!
Verification of the segment-merge-and-splice engine of ZapFillerWords
(`src/filler_remover15.py` and `src/filler_remover16.py`).

Shallow embedding conventions:
* An audio buffer (`pydub.AudioSegment`) is a `List α` holding one sample per
  millisecond, so `len(buffer)` in milliseconds is `List.length`.  Slicing
  `buf[l:r]`, concatenation `+`, `overlay` and tone generation are embedded
  below.  Sample mixing performed by `overlay`/crossfade is abstracted as a
  parameter `mix : α → α → α`; the claims under verification never depend on
  the mixed sample values, only on buffer contents and lengths.
* Every timestamp handled by the programs is a non-negative integer number of
  milliseconds (`int(word['start'] * 1000)` of a non-negative float), so
  timestamps are embedded as `Nat`.  On this domain Python's
  `max(0, start - lookback)` is `Nat` truncated subtraction applied after
  `max 0`, `min(duration, end + padding)` is `min`, and the stutter gap test
  `b_start - a_end < 200` agrees with `Nat` truncated subtraction (a negative
  gap and a truncated-to-zero gap are both below the threshold).
-/

/-- Word record delivered by the transcription step: the text plus its span in
integer milliseconds (the Python code converts the transcriber's float seconds
with `int(t * 1000)`; all downstream logic uses the millisecond integers). -/
structure Word where
  word : String
  start_ms : Nat
  end_ms : Nat
deriving DecidableEq, Repr

/-- `EXCLUSIONS` from `filler_remover15.py`: words never removed. -/
def EXCLUSIONS : List String := ["a", "and", "the"]

/-- `FILLER_WORDS` from `filler_remover15.py`: the default filler set. -/
def FILLER_WORDS : List String :=
  ["um", "uh", "er", "hmm", "mhm", "uh-huh", "um-hum", "umm", "uhh", "erm", "ooh"]

/-- Python `"".join(c for c in w if c.isalnum())` (ASCII agreement with
`Char.isAlphanum`), as used in `find_fillers`. -/
def cleanAlnum (w : String) : String :=
  String.mk (w.toList.filter Char.isAlphanum)

/-- Python `"".join(c for c in w if c.isalnum() or c == '-')`, as used in
`find_stutters`. -/
def cleanAlnumHyphen (w : String) : String :=
  String.mk (w.toList.filter (fun c => Char.isAlphanum c || c == '-'))

/-- Per-word body of the `find_fillers` loop: clean the word, skip it when the
cleaned form is in `EXCLUSIONS`, otherwise report it when it is in the active
filler list. -/
def fillerCheck (fillerList : List String) (w : Word) :
    Option (Nat × Nat × String) :=
  let clean := cleanAlnum w.word
  if clean ∈ EXCLUSIONS then none
  else if clean ∈ fillerList then some (w.start_ms, w.end_ms, clean)
  else none

/-- `find_fillers(segments, filler_list)` from `filler_remover15.py`: the two
nested `for` loops appending matches translate to `filterMap` over the
flattened word list. -/
def findFillers (segments : List (List Word)) (fillerList : List String) :
    List (Nat × Nat × String) :=
  segments.flatten.filterMap (fillerCheck fillerList)

/-- Loop body of `find_stutters` over consecutive pairs of the flattened word
list (`for i in range(len(all_words) - 1)`): clean both words keeping
alphanumerics and hyphens, `continue` when the first cleaned word is excluded,
and flag the first word's span when the cleaned words are equal, non-empty and
the gap to the second word's start is under 200 ms. -/
def stutterScan : List Word → List (Nat × Nat × String)
  | a :: b :: rest =>
    let ca := cleanAlnumHyphen a.word
    let cb := cleanAlnumHyphen b.word
    if ca ∈ EXCLUSIONS then stutterScan (b :: rest)
    else if ca ≠ "" ∧ ca = cb ∧ b.start_ms - a.end_ms < 200 then
      (a.start_ms, a.end_ms, "STUTTER: " ++ ca) :: stutterScan (b :: rest)
    else stutterScan (b :: rest)
  | _ => []

/-- `find_stutters(segments)` from `filler_remover15.py`. -/
def findStutters (segments : List (List Word)) : List (Nat × Nat × String) :=
  stutterScan segments.flatten

/-- Lexicographic order on `(start_ms, end_ms)` pairs: the order used by
Python's `sorted` on 2-tuples in `process_audio_pydub`.  It is total,
transitive and antisymmetric, so any sorting algorithm yields exactly the
`sorted` result (stability is moot: equal keys are identical pairs). -/
def lexLe (p q : Nat × Nat) : Prop :=
  p.1 < q.1 ∨ (p.1 = q.1 ∧ p.2 ≤ q.2)

instance : DecidableRel lexLe := fun p q =>
  inferInstanceAs (Decidable (_ ∨ _))

instance : IsTotal (Nat × Nat) lexLe where
  total p q := by
    rcases Nat.lt_trichotomy p.1 q.1 with h | h | h
    · exact Or.inl (Or.inl h)
    · rcases Nat.le_total p.2 q.2 with h2 | h2
      · exact Or.inl (Or.inr ⟨h, h2⟩)
      · exact Or.inr (Or.inr ⟨h.symm, h2⟩)
    · exact Or.inr (Or.inl h)

instance : IsTrans (Nat × Nat) lexLe where
  trans p q r hpq hqr := by
    rcases hpq with h1 | ⟨h1, h1'⟩ <;> rcases hqr with h2 | ⟨h2, h2'⟩
    · exact Or.inl (h1.trans h2)
    · exact Or.inl (h2 ▸ h1)
    · exact Or.inl (h1 ▸ h2)
    · exact Or.inr ⟨h1.trans h2, h1'.trans h2'⟩

/-- Per-interval widening and clamping from the merge loop of
`process_audio_pydub`: `start = max(0, start - start_offset_ms)` and
`end = min(duration_ms, end + padding_ms)`. -/
def widenClamp (durationMs lookbackMs paddingMs : Nat) (p : Nat × Nat) :
    Nat × Nat :=
  (max 0 (p.1 - lookbackMs), min durationMs (p.2 + paddingMs))

/-- Merge sweep of `process_audio_pydub`: `cur` is the trailing element of the
Python `merged_cuts` list; an incoming interval starting at or before
`cur`'s end extends it (`merged_cuts[-1] = (start0, max(end0, end))`),
otherwise `cur` is emitted and the incoming interval becomes current. -/
def sweepMerge : Nat × Nat → List (Nat × Nat) → List (Nat × Nat)
  | cur, [] => [cur]
  | cur, (s, e) :: rest =>
    if s ≤ cur.2 then sweepMerge (cur.1, max cur.2 e) rest
    else cur :: sweepMerge (s, e) rest

/-- Merge sweep over a whole list: an empty `segments_time` leaves
`merged_cuts` empty, otherwise the first widened interval seeds the sweep. -/
def sweepMergeAll : List (Nat × Nat) → List (Nat × Nat)
  | [] => []
  | c :: rest => sweepMerge c rest

/-- The widen-sort-merge step of `process_audio_pydub` (its lines building
`merged_cuts` from `segments_time`): sort the raw `(start, end)` pairs, widen
each by lookback/padding clamped to `[0, duration_ms]`, and merge overlapping
or touching intervals. -/
def mergeCuts (durationMs lookbackMs paddingMs : Nat)
    (segs : List (Nat × Nat)) : List (Nat × Nat) :=
  sweepMergeAll ((List.insertionSort lexLe segs).map
    (widenClamp durationMs lookbackMs paddingMs))

/-- Python slice `buf[l:r]` of a millisecond-sample buffer, for the
non-negative indices used throughout both programs (negative indices never
arise: every slice bound is a clamped timestamp or a loop cursor). -/
def pySlice {α : Type} (a : List α) (l r : Nat) : List α :=
  (a.take r).drop l

/-- pydub `base.overlay(patch, position=pos)`: the base keeps its length, the
patch is mixed sample-by-sample onto `[pos, pos + len(patch))` and truncated
where it runs past the base. -/
def overlaySeg {α : Type} (mix : α → α → α) (base patch : List α)
    (pos : Nat) : List α :=
  base.take pos ++ List.zipWith mix (base.drop pos) patch
    ++ base.drop (pos + patch.length)

/-- BEEP branch of `process_audio_pydub`: starting from the original buffer,
overlay a `Sine(1000)` tone of the cut's duration (its sample content is an
abstract `beepSample`) at each merged cut of duration at least 1 ms. -/
def beepLoop {α : Type} (mix : α → α → α) (beepSample : α) :
    List α → List (Nat × Nat) → List α
  | processed, [] => processed
  | processed, (s, e) :: rest =>
    if e - s < 1 then beepLoop mix beepSample processed rest
    else beepLoop mix beepSample
      (overlaySeg mix processed (List.replicate (e - s) beepSample) s) rest

/-- pydub `a.append(b, crossfade=cf)` as called in the CUT branch: for
`cf = 0` (and for the plain `+=` path) this is concatenation; for positive
`cf` the trailing `cf` ms of `a` are mixed with the leading `cf` ms of `b`,
shortening the result by `cf` ms. -/
def appendSeg {α : Type} (mix : α → α → α) (acc seg : List α) (cf : Nat) :
    List α :=
  if 0 < acc.length ∧ 0 < cf then
    acc.take (acc.length - cf)
      ++ List.zipWith mix (acc.drop (acc.length - cf)) (seg.take cf)
      ++ seg.drop cf
  else acc ++ seg

/-- CUT branch loop of `process_audio_pydub`: walk the merged cuts keeping
`last_pos`; before each cut append the kept span `audio[last_pos:start]`
(crossfading only when the accumulator is non-empty and `crossfade_ms > 0`),
then jump `last_pos` to the cut's end.  Returns the accumulator and the final
`last_pos`. -/
def cutLoop {α : Type} (mix : α → α → α) (audio : List α) (cf : Nat) :
    List α → Nat → List (Nat × Nat) → List α × Nat
  | acc, lastPos, [] => (acc, lastPos)
  | acc, lastPos, (s, e) :: rest =>
    cutLoop mix audio cf
      (if lastPos < s then appendSeg mix acc (pySlice audio lastPos s) cf
       else acc)
      e rest

/-- CUT branch of `process_audio_pydub`: run the loop from an empty buffer and
cursor 0, then append the tail `audio[last_pos:]` when any audio remains. -/
def reassembleCut {α : Type} (mix : α → α → α) (audio : List α)
    (cuts : List (Nat × Nat)) (cf : Nat) : List α :=
  let r := cutLoop mix audio cf [] 0 cuts
  if r.2 < audio.length then appendSeg mix r.1 (audio.drop r.2) cf
  else r.1

/-- Export-format choice at the end of `process_audio_pydub`: `"flac"` or
`"wav"` by the lower-cased output file name's extension, `"mp3"` otherwise. -/
def outFormat (outputFile : String) : String :=
  if (outputFile.toLower).endsWith ".flac" then "flac"
  else if (outputFile.toLower).endsWith ".wav" then "wav"
  else "mp3"

/-- `process_audio_pydub(input, output, segments_to_remove, debug_beep,
padding_ms, start_offset_ms, crossfade_ms)` from `filler_remover15.py`,
returning the export format and the exported buffer: with no segments the
original audio is exported as `"mp3"` immediately; otherwise the labelled
segments are stripped to `(start, end)` pairs, widened, sorted and merged,
processed by the BEEP or CUT branch, and exported in the extension-chosen
format. -/
def processAudioPydub {α : Type} (mix : α → α → α) (beepSample : α)
    (audio : List α) (outputFile : String)
    (segmentsToRemove : List (Nat × Nat × String)) (debugBeep : Bool)
    (paddingMs startOffsetMs crossfadeMs : Nat) : String × List α :=
  if segmentsToRemove.isEmpty then ("mp3", audio)
  else
    let merged := mergeCuts audio.length startOffsetMs paddingMs
      (segmentsToRemove.map (fun t => (t.1, t.2.1)))
    let processed :=
      if debugBeep then beepLoop mix beepSample audio merged
      else reassembleCut mix audio merged crossfadeMs
    (outFormat outputFile, processed)

/-- `MOCK_TRANSCRIPT_DATA` from `filler_remover16.py`, in integer milliseconds:
for every entry the IEEE-double product `start * 1000` (and `end * 1000`)
rounds to the exact integer shown, so `int(item['start'] * 1000)` yields these
values. -/
def MOCK_TRANSCRIPT_DATA : List Word :=
  [⟨"Hello,", 100, 500⟩, ⟨"um,", 550, 800⟩, ⟨"this", 900, 1200⟩,
   ⟨"is", 1250, 1400⟩, ⟨"a", 1450, 1500⟩, ⟨"test", 1550, 1900⟩,
   ⟨"of", 1950, 2100⟩, ⟨"the", 2150, 2300⟩, ⟨"filler", 2350, 2700⟩,
   ⟨"remover,", 2750, 3200⟩, ⟨"ah,", 3300, 3600⟩, ⟨"and", 3650, 3800⟩,
   ⟨"you", 3850, 4000⟩, ⟨"can", 4050, 4200⟩, ⟨"select", 4250, 4600⟩,
   ⟨"words", 4650, 4900⟩, ⟨"to", 4950, 5050⟩, ⟨"remove,", 5100, 5500⟩,
   ⟨"uh,", 5550, 5800⟩, ⟨"manually.", 5850, 6500⟩]

/-- Splice loop of `process_edited_audio` (`for i, item in
enumerate(transcript)`): a selected word is skipped with `pass` (note:
`last_kept_end_ms` is NOT advanced); a kept word appends the silent gap
`audio[last_kept_end_ms:start_ms]` and the word `audio[start_ms:end_ms]`, then
sets `last_kept_end_ms = end_ms`.  Returns the accumulator and the final
cursor. -/
def editLoop {α : Type} (audio : List α) (sel : Nat → Bool) :
    Nat → List α → Nat → List Word → List α × Nat
  | _, acc, lastKept, [] => (acc, lastKept)
  | i, acc, lastKept, w :: rest =>
    if sel i then editLoop audio sel (i + 1) acc lastKept rest
    else editLoop audio sel (i + 1)
      (acc ++ pySlice audio lastKept w.start_ms
        ++ pySlice audio w.start_ms w.end_ms)
      w.end_ms rest

/-- Audio-splicing core of `process_edited_audio` from `filler_remover16.py`:
run the edit loop over `MOCK_TRANSCRIPT_DATA` from an empty buffer, then
append the remaining tail `audio[last_kept_end_ms:]` when any audio remains.
`sel i` states that index `i` is in the selected-indices set. -/
def spliceEdited {α : Type} (audio : List α) (sel : Nat → Bool) : List α :=
  let r := editLoop audio sel 0 [] 0 MOCK_TRANSCRIPT_DATA
  if r.2 < audio.length then r.1 ++ audio.drop r.2 else r.1

/-- JSON values as produced by `json.loads` (numbers are restricted to the
integers, the only numerals relevant to index lists). -/
inductive JVal where
  | jnull
  | jbool (b : Bool)
  | jnum (n : Int)
  | jstr (s : String)
  | jarr (elems : List JVal)
  | jobj (fields : List (String × JVal))

/-- Decimal value of a digit list. -/
def digitsToNat (cs : List Char) : Nat :=
  cs.foldl (fun n c => n * 10 + (c.toNat - 48)) 0

/-- Python `int(str)`: strip surrounding whitespace, allow one optional sign,
then require at least one decimal digit; otherwise raise `ValueError`
(`none`). -/
def pyIntOfString (s : String) : Option Int :=
  let cs :=
    ((s.toList.dropWhile Char.isWhitespace).reverse.dropWhile
      Char.isWhitespace).reverse
  let neg := cs.head? = some '-'
  let ds := match cs with
    | c :: rest => if c = '+' ∨ c = '-' then rest else cs
    | [] => []
  if ds ≠ [] ∧ ds.all Char.isDigit then
    some (if neg then -(digitsToNat ds : Int) else (digitsToNat ds : Int))
  else none

/-- Python `int(x)` on a decoded JSON value: integers pass through, booleans
coerce, strings are parsed as optionally signed decimal integers after
stripping whitespace, anything else raises (`none`). -/
def pyIntOf : JVal → Option Int
  | .jnum n => some n
  | .jbool b => some (if b then 1 else 0)
  | .jstr s => pyIntOfString s
  | _ => none

/-- Python iteration over a decoded JSON value (`for i in json.loads(...)`):
lists yield their elements, strings their characters, objects their keys, and
any other value raises `TypeError` (`none`). -/
def pyIterate : JVal → Option (List JVal)
  | .jarr l => some l
  | .jstr s => some (s.toList.map (fun c => JVal.jstr (String.mk [c])))
  | .jobj f => some (f.map (fun kv => JVal.jstr kv.1))
  | _ => none

/-- The set comprehension `{int(i) for i in json.loads(...)}` applied to a
decoded value: iterate, convert each element with `int`, or raise (`none`).
Membership below treats the resulting list as the Python set. -/
def parseSelectedIndices (v : JVal) : Option (List Int) :=
  (pyIterate v).bind (List.mapM pyIntOf)

/-- Python `lst[i]` with a possibly negative index: out-of-range access raises
`IndexError` (`none`). -/
def pyListGet {β : Type} (l : List β) (i : Int) : Option β :=
  if 0 ≤ i then l.get? i.toNat
  else if 0 ≤ i + l.length then l.get? (i + l.length).toNat
  else none

/-- Outcome of one `process_edited_audio` call: either a Python exception
escaped the function (`raised`, recording any file written before the raise),
or the function returned `(written, log)` where `written` is the exported
audio if a file was written. -/
inductive RunOutcome (α : Type) where
  | raised (msg : String) (written : Option (List α))
  | returned (written : Option (List α)) (log : String)

/-- `process_edited_audio(original_audio_path, selected_indices_json)` from
`filler_remover16.py`.  External collaborators enter as parameters: `jloads`
is `json.loads` (error = `json.JSONDecodeError`), `audioLoad` the result of
`AudioSegment.from_file`, `pathGiven` whether `original_audio_path` is not
`None`.  Faithful to the source, only a JSON decode error is caught; a
`ValueError`/`TypeError` from `int(i)` and an `IndexError` from
`transcript[i]` in the log construction escape (the latter after the file
export). -/
def processEditedAudio {α : Type} (jloads : String → Except String JVal)
    (audioLoad : Except String (List α)) (pathGiven : Bool)
    (jsonStr : String) : RunOutcome α :=
  if pathGiven = false then
    .returned none "Error: No original audio file found to process."
  else
    match jloads jsonStr with
    | .error _ => .returned none "Error: Could not parse selected words."
    | .ok v =>
      match parseSelectedIndices v with
      | none => .raised "int() conversion failed: uncaught ValueError" none
      | some idxs =>
        match audioLoad with
        | .error e => .returned none ("Error loading audio file: " ++ e)
        | .ok audio =>
          let out := spliceEdited audio (fun i => (Int.ofNat i) ∈ idxs)
          match idxs.mapM
              (fun i => (pyListGet MOCK_TRANSCRIPT_DATA i).map Word.word) with
          | none => .raised "list index out of range" (some out)
          | some removed =>
            .returned (some out)
              (if removed.isEmpty then
                "No words were selected for removal. Original audio logic applied (though no changes were made)."
              else
                "Successfully removed the following segments (words selected by user): "
                  ++ String.intercalate ", " removed)

/-- Chronology check used to reason about the splice loop: from cursor
`lastKept`, every word starts no earlier than the cursor, ends no earlier
than it starts, and the rest is chronological from its end (true of
`MOCK_TRANSCRIPT_DATA`, whose words are time-ordered and non-overlapping). -/
def okWords : Nat → List Word → Bool
  | _, [] => true
  | lastKept, w :: rest =>
    decide (lastKept ≤ w.start_ms) && decide (w.start_ms ≤ w.end_ms)
      && okWords w.end_ms rest

/-- Specification-side restatement of the stutter rule, for the refinement
theorem: flag each consecutive pair whose first cleaned word (alphanumerics
and hyphens retained, as the source does, with no case folding) is outside
`EXCLUSIONS`, non-empty, equal to the second cleaned word, with gap below
200 ms. -/
def stutterSpec (ws : List Word) : List (Nat × Nat × String) :=
  (ws.zip ws.tail).filterMap (fun ab =>
    let ca := cleanAlnumHyphen ab.1.word
    if ca ∉ EXCLUSIONS ∧ ca ≠ "" ∧ ca = cleanAlnumHyphen ab.2.word
        ∧ ab.2.start_ms - ab.1.end_ms < 200 then
      some (ab.1.start_ms, ab.1.end_ms, "STUTTER: " ++ ca)
    else none)

/-- Character-list lower-casing (`str.lower()` on ASCII text). -/
def pyLower (s : String) : String :=
  String.mk (s.toList.map Char.toLower)

/-- Claim-side stutter rule exactly as the claim words it, with lower-cased
normalization: the spans the claim predicts `find_stutters` flags. -/
def stutterSpecLower (ws : List Word) : List (Nat × Nat) :=
  (ws.zip ws.tail).filterMap (fun ab =>
    let ca := pyLower (cleanAlnumHyphen ab.1.word)
    if ca ∉ EXCLUSIONS ∧ ca ≠ "" ∧ ca = pyLower (cleanAlnumHyphen ab.2.word)
        ∧ ab.2.start_ms - ab.1.end_ms < 200 then
      some (ab.1.start_ms, ab.1.end_ms)
    else none)

/-- Concrete stand-in for `json.loads` on the single input it is applied to
below: the string `["a"]` is valid JSON and decodes to a one-element array
holding the string `a`; every other input is treated as a decode error. -/
def jloadsStub : String → Except String JVal :=
  fun s => if s = "[\"a\"]" then .ok (.jarr [.jstr "a"]) else .error "Expecting value"

/-- Strict chronological sortedness weakened at start `0`: the invariant the
widened sorted intervals satisfy entering the merge sweep.  Lookback
truncation (`max(0, start - lookback)`) can send two differently-started
intervals to start `0` with unordered ends, which is why the plain
lexicographic chain does not survive widening; starts at `0` can never be
reached by the sweep's strict `start > current_end` split, so the weakening
is harmless. -/
def preLex (p q : Nat × Nat) : Prop :=
  p.1 < q.1 ∨ (p.1 = q.1 ∧ (q.1 = 0 ∨ p.2 ≤ q.2))

/-! Helper lemmas about the merge sweep. -/

theorem sweepMerge_head (l : List (Nat × Nat)) : ∀ c : Nat × Nat,
    ∃ e' t, sweepMerge c l = (c.1, e') :: t ∧ c.2 ≤ e' := by
  induction l with
  | nil => exact fun c => ⟨c.2, [], rfl, le_rfl⟩
  | cons p rest ih =>
    intro c
    obtain ⟨s, e⟩ := p
    by_cases h : s ≤ c.2
    · obtain ⟨e', t, heq, hle⟩ := ih (c.1, max c.2 e)
      exact ⟨e', t, by rw [sweepMerge, if_pos h]; exact heq,
        le_trans (Nat.le_max_left _ _) hle⟩
    · exact ⟨c.2, sweepMerge (s, e) rest, by rw [sweepMerge, if_neg h], le_rfl⟩

theorem sweepMerge_chain (l : List (Nat × Nat)) : ∀ c : Nat × Nat,
    List.Chain' (fun p q => p.2 < q.1) (sweepMerge c l) := by
  induction l with
  | nil => intro c; simp [sweepMerge]
  | cons p rest ih =>
    intro c
    obtain ⟨s, e⟩ := p
    by_cases h : s ≤ c.2
    · rw [sweepMerge, if_pos h]; exact ih (c.1, max c.2 e)
    · rw [sweepMerge, if_neg h]
      rw [List.chain'_cons']
      refine ⟨?_, ih (s, e)⟩
      intro y hy
      obtain ⟨e', t, heq, _⟩ := sweepMerge_head rest (s, e)
      rw [heq] at hy
      simp only [List.head?_cons, Option.mem_def, Option.some.injEq] at hy
      subst hy
      exact Nat.lt_of_not_le h

theorem sweepMerge_ends_le (D : Nat) (l : List (Nat × Nat)) :
    ∀ c : Nat × Nat, c.2 ≤ D → (∀ p ∈ l, p.2 ≤ D) →
      ∀ p ∈ sweepMerge c l, p.2 ≤ D := by
  induction l with
  | nil =>
    intro c hc _ p hp
    simp only [sweepMerge, List.mem_singleton] at hp
    exact hp ▸ hc
  | cons q rest ih =>
    intro c hc hl p hp
    obtain ⟨s, e⟩ := q
    by_cases h : s ≤ c.2
    · rw [sweepMerge, if_pos h] at hp
      refine ih (c.1, max c.2 e) ?_ (fun r hr => hl r (List.mem_cons_of_mem _ hr)) p hp
      exact max_le hc (hl (s, e) (List.mem_cons_self _ _))
    · rw [sweepMerge, if_neg h] at hp
      rcases List.mem_cons.mp hp with rfl | hp'
      · exact hc
      · exact ih (s, e) (hl (s, e) (List.mem_cons_self _ _))
          (fun r hr => hl r (List.mem_cons_of_mem _ hr)) p hp'

theorem sweepMerge_wf (l : List (Nat × Nat)) :
    ∀ c : Nat × Nat, c.1 ≤ c.2 → (∀ p ∈ l, p.1 ≤ p.2) →
      ∀ p ∈ sweepMerge c l, p.1 ≤ p.2 := by
  induction l with
  | nil =>
    intro c hc _ p hp
    simp only [sweepMerge, List.mem_singleton] at hp
    exact hp ▸ hc
  | cons q rest ih =>
    intro c hc hl p hp
    obtain ⟨s, e⟩ := q
    by_cases h : s ≤ c.2
    · rw [sweepMerge, if_pos h] at hp
      refine ih (c.1, max c.2 e) (le_trans hc (Nat.le_max_left _ _))
        (fun r hr => hl r (List.mem_cons_of_mem _ hr)) p hp
    · rw [sweepMerge, if_neg h] at hp
      rcases List.mem_cons.mp hp with rfl | hp'
      · exact hc
      · exact ih (s, e) (hl (s, e) (List.mem_cons_self _ _))
          (fun r hr => hl r (List.mem_cons_of_mem _ hr)) p hp'

theorem preLex_absorb {c p r : Nat × Nat} (h1 : preLex c p) (h2 : preLex p r) :
    preLex (c.1, max c.2 p.2) r := by
  unfold preLex at *
  omega

theorem sweepMerge_sortedLex (l : List (Nat × Nat)) : ∀ c : Nat × Nat,
    List.Chain' preLex (c :: l) → List.Chain' lexLe (sweepMerge c l) := by
  induction l with
  | nil => intro c _; simp [sweepMerge]
  | cons q rest ih =>
    intro c hch
    obtain ⟨s, e⟩ := q
    rw [List.chain'_cons] at hch
    obtain ⟨hcq, hch'⟩ := hch
    by_cases h : s ≤ c.2
    · rw [sweepMerge, if_pos h]
      apply ih (c.1, max c.2 e)
      rcases rest with _ | ⟨r, rest'⟩
      · simp
      · rw [List.chain'_cons] at hch' ⊢
        exact ⟨preLex_absorb hcq hch'.1, hch'.2⟩
    · rw [sweepMerge, if_neg h]
      rw [List.chain'_cons']
      refine ⟨?_, ih (s, e) hch'⟩
      intro y hy
      obtain ⟨e', t, heq, hee'⟩ := sweepMerge_head rest (s, e)
      rw [heq] at hy
      simp only [List.head?_cons, Option.mem_def, Option.some.injEq] at hy
      subst hy
      unfold preLex at hcq
      unfold lexLe
      omega

theorem widenClamp_preLex (D lb pad : Nat) {p q : Nat × Nat}
    (h : lexLe p q) : preLex (widenClamp D lb pad p) (widenClamp D lb pad q) := by
  unfold lexLe at h
  unfold preLex widenClamp
  simp only [Nat.zero_max]
  omega

theorem sweepMerge_eq_self (l : List (Nat × Nat)) : ∀ c : Nat × Nat,
    List.Chain' (fun p q => p.2 < q.1) (c :: l) → sweepMerge c l = c :: l := by
  induction l with
  | nil => intro c _; rfl
  | cons q rest ih =>
    intro c hch
    obtain ⟨s, e⟩ := q
    rw [List.chain'_cons] at hch
    have hlt : c.2 < s := hch.1
    rw [sweepMerge, if_neg (Nat.not_le_of_lt hlt)]
    rw [ih (s, e) hch.2]

/-! Helper lemmas about `mergeCuts`. -/

theorem mergeCuts_chain (D lb pad : Nat) (segs : List (Nat × Nat)) :
    List.Chain' (fun p q => p.2 < q.1) (mergeCuts D lb pad segs) := by
  unfold mergeCuts
  cases h : (List.insertionSort lexLe segs).map (widenClamp D lb pad) with
  | nil => simp [sweepMergeAll]
  | cons c rest => rw [sweepMergeAll]; exact sweepMerge_chain rest c

theorem mergeCuts_ends_le (D lb pad : Nat) (segs : List (Nat × Nat)) :
    ∀ p ∈ mergeCuts D lb pad segs, p.2 ≤ D := by
  unfold mergeCuts
  cases h : (List.insertionSort lexLe segs).map (widenClamp D lb pad) with
  | nil => simp [sweepMergeAll]
  | cons c rest =>
    rw [sweepMergeAll]
    have hall : ∀ p ∈ (c :: rest), p.2 ≤ D := by
      rw [← h]
      intro p hp
      obtain ⟨q, _, rfl⟩ := List.mem_map.mp hp
      exact min_le_left _ _
    exact sweepMerge_ends_le D rest c (hall c (List.mem_cons_self _ _))
      (fun r hr => hall r (List.mem_cons_of_mem _ hr))

theorem mergeCuts_sortedLex (D lb pad : Nat) (segs : List (Nat × Nat)) :
    List.Chain' lexLe (mergeCuts D lb pad segs) := by
  unfold mergeCuts
  cases h : (List.insertionSort lexLe segs).map (widenClamp D lb pad) with
  | nil => simp [sweepMergeAll]
  | cons c rest =>
    rw [sweepMergeAll]
    apply sweepMerge_sortedLex
    rw [← h, List.chain'_map]
    apply List.Chain'.imp (fun a b hab => widenClamp_preLex D lb pad hab)
    exact ((List.sorted_insertionSort lexLe segs).chain')

theorem mergeCuts_wf (D lb pad : Nat) (segs : List (Nat × Nat))
    (h : ∀ p ∈ segs, p.1 ≤ p.2 ∧ p.2 ≤ D) :
    ∀ p ∈ mergeCuts D lb pad segs, p.1 ≤ p.2 := by
  unfold mergeCuts
  cases hm : (List.insertionSort lexLe segs).map (widenClamp D lb pad) with
  | nil => simp [sweepMergeAll]
  | cons c rest =>
    rw [sweepMergeAll]
    have hall : ∀ p ∈ (c :: rest), p.1 ≤ p.2 := by
      rw [← hm]
      intro p hp
      obtain ⟨q, hq, rfl⟩ := List.mem_map.mp hp
      have hq' := h q ((List.mem_insertionSort lexLe).mp hq)
      unfold widenClamp
      simp only [Nat.zero_max]
      omega
    exact sweepMerge_wf rest c (hall c (List.mem_cons_self _ _))
      (fun r hr => hall r (List.mem_cons_of_mem _ hr))

theorem chain_fst_lt (l : List (Nat × Nat)) (hwf : ∀ p ∈ l, p.1 ≤ p.2)
    (h : List.Chain' (fun p q => p.2 < q.1) l) :
    List.Chain' (fun p q => p.1 < q.1) l := by
  induction l with
  | nil => simp
  | cons a t ih =>
    rw [List.chain'_cons'] at h ⊢
    refine ⟨fun y hy => ?_, ih (fun p hp => hwf p (List.mem_cons_of_mem _ hp)) h.2⟩
    exact lt_of_le_of_lt (hwf a (List.mem_cons_self _ _)) (h.1 y hy)

theorem sweepMergeAll_eq_self (l : List (Nat × Nat))
    (h : List.Chain' (fun p q => p.2 < q.1) l) : sweepMergeAll l = l := by
  cases l with
  | nil => rfl
  | cons c rest => rw [sweepMergeAll]; exact sweepMerge_eq_self rest c h

/-- C3: Merge disjointness — for every input interval list (and any duration,
lookback, padding), adjacent intervals of the merged output satisfy
`end_ms[i] < start_ms[i+1]`: no two output intervals overlap or abut. -/
theorem mergeCuts_disjoint (D lb pad : Nat) (segs : List (Nat × Nat)) :
    List.Chain' (fun p q => p.2 < q.1) (mergeCuts D lb pad segs) :=
  mergeCuts_chain D lb pad segs

/-- C4 counterexample: with the app's default lookback 100 ms and padding
50 ms, the merge step widens again on a second application —
`merge(merge([(1000,1200)]))` is `[(800,1300)]` while `merge([(1000,1200)])`
is `[(900,1250)]` (duration 10000 ms) — so the claimed idempotence fails as
stated. -/
theorem mergeCuts_not_idempotent :
    mergeCuts 10000 100 50 (mergeCuts 10000 100 50 [(1000, 1200)])
      ≠ mergeCuts 10000 100 50 [(1000, 1200)] := by decide

/-- C4 amended: the merge step is idempotent when its per-interval widening
parameters are zero (`lookback_ms = padding_ms = 0`): with nonzero widening
each application widens every interval further, as the counterexample shows.
-/
theorem mergeCuts_idempotent_zero_widen (D : Nat) (X : List (Nat × Nat)) :
    mergeCuts D 0 0 (mergeCuts D 0 0 X) = mergeCuts D 0 0 X := by
  have hchain := mergeCuts_chain D 0 0 X
  have hends := mergeCuts_ends_le D 0 0 X
  have hsort := mergeCuts_sortedLex D 0 0 X
  set M := mergeCuts D 0 0 X with hM
  have hsorted : List.Sorted lexLe M := (List.chain'_iff_pairwise).mp hsort
  have h1 : List.insertionSort lexLe M = M := hsorted.insertionSort_eq
  have h2 : M.map (widenClamp D 0 0) = M := by
    have hpt : ∀ p ∈ M, widenClamp D 0 0 p = p := by
      intro p hp
      obtain ⟨a, b⟩ := p
      have hb : b ≤ D := hends (a, b) hp
      simp only [widenClamp, Nat.zero_max, Nat.sub_zero, Nat.add_zero]
      rw [Nat.min_eq_right hb]
    calc M.map (widenClamp D 0 0) = M.map id := List.map_congr_left hpt
      _ = M := List.map_id M
  show sweepMergeAll ((List.insertionSort lexLe M).map (widenClamp D 0 0)) = M
  rw [h1, h2]
  exact sweepMergeAll_eq_self M hchain

/-- C9: Merged-cut bounds invariant — when every raw interval `(s, e)`
satisfies `s ≤ e ≤ D`, every merged interval `(s', e')` satisfies
`s' ≤ e' ≤ D` (with `0 ≤ s'` trivial over `Nat`), and the merged starts are
strictly increasing. -/
theorem mergeCuts_bounds (D lb pad : Nat) (segs : List (Nat × Nat))
    (h : ∀ p ∈ segs, p.1 ≤ p.2 ∧ p.2 ≤ D) :
    (∀ p ∈ mergeCuts D lb pad segs, p.1 ≤ p.2 ∧ p.2 ≤ D) ∧
      List.Chain' (fun p q => p.1 < q.1) (mergeCuts D lb pad segs) := by
  have hwf := mergeCuts_wf D lb pad segs h
  have hends := mergeCuts_ends_le D lb pad segs
  exact ⟨fun p hp => ⟨hwf p hp, hends p hp⟩,
    chain_fst_lt _ hwf (mergeCuts_chain D lb pad segs)⟩

/-- C9 witness: the bounds hypothesis holds for the scenario intervals
`[(1000,1200),(1150,1400),(5000,5100)]` at duration 10000 ms (defaults
lookback 100, padding 50), and the invariant follows. -/
theorem mergeCuts_bounds_witness :
    (∀ p ∈ [((1000 : Nat), (1200 : Nat)), (1150, 1400), (5000, 5100)],
        p.1 ≤ p.2 ∧ p.2 ≤ 10000) ∧
      ((∀ p ∈ mergeCuts 10000 100 50 [(1000, 1200), (1150, 1400), (5000, 5100)],
          p.1 ≤ p.2 ∧ p.2 ≤ 10000) ∧
        List.Chain' (fun p q => p.1 < q.1)
          (mergeCuts 10000 100 50 [(1000, 1200), (1150, 1400), (5000, 5100)])) :=
  ⟨by decide, mergeCuts_bounds 10000 100 50 _ (by decide)⟩

/-! Helper lemmas about the reassembly branches. -/

theorem appendSeg_zero {α : Type} (mix : α → α → α) (acc seg : List α) :
    appendSeg mix acc seg 0 = acc ++ seg := by
  unfold appendSeg
  simp

theorem pySlice_length {α : Type} (a : List α) (l r : Nat) :
    (pySlice a l r).length = min r a.length - l := by
  simp [pySlice]

theorem cutLoop_len {α : Type} (mix : α → α → α) (audio : List α) :
    ∀ (cuts : List (Nat × Nat)) (acc : List α) (lastPos : Nat),
      (∀ p ∈ cuts, p.1 ≤ p.2 ∧ p.2 ≤ audio.length) →
      List.Chain' (fun p q => p.2 ≤ q.1) cuts →
      (∀ c ∈ cuts.head?, lastPos ≤ c.1) →
      lastPos ≤ audio.length →
      (cutLoop mix audio 0 acc lastPos cuts).1.length
          + (audio.length - (cutLoop mix audio 0 acc lastPos cuts).2)
          + ((cuts.map (fun p => p.2 - p.1)).sum)
        = acc.length + (audio.length - lastPos)
      ∧ (cutLoop mix audio 0 acc lastPos cuts).2 ≤ audio.length := by
  intro cuts
  induction cuts with
  | nil =>
    intro acc lastPos _ _ _ hl
    exact ⟨by simp [cutLoop], hl⟩
  | cons p rest ih =>
    intro acc lastPos hwf hch hhead hl
    obtain ⟨s, e⟩ := p
    have hse : s ≤ e ∧ e ≤ audio.length := hwf (s, e) (List.mem_cons_self _ _)
    have hls : lastPos ≤ s := hhead (s, e) rfl
    rw [List.chain'_cons'] at hch
    simp only [cutLoop, List.map_cons, List.sum_cons]
    rcases Nat.lt_or_ge lastPos s with hlt | hge
    · rw [if_pos hlt]
      have hrec := ih (appendSeg mix acc (pySlice audio lastPos s) 0) e
        (fun q hq => hwf q (List.mem_cons_of_mem _ hq)) hch.2 hch.1 hse.2
      have hlen : (appendSeg mix acc (pySlice audio lastPos s) 0).length
          = acc.length + (s - lastPos) := by
        rw [appendSeg_zero, List.length_append, pySlice_length,
          Nat.min_eq_left (Nat.le_trans hse.1 hse.2)]
      refine ⟨?_, hrec.2⟩
      have h1 := hrec.1
      rw [hlen] at h1
      omega
    · have heq : lastPos = s := Nat.le_antisymm hls hge
      rw [if_neg (Nat.not_lt_of_ge hge)]
      have hrec := ih acc e
        (fun q hq => hwf q (List.mem_cons_of_mem _ hq)) hch.2 hch.1 hse.2
      refine ⟨?_, hrec.2⟩
      have h1 := hrec.1
      omega

/-- C2: CUT-mode duration — for a chronologically ordered, pairwise disjoint
cut list whose intervals satisfy `start ≤ end ≤ total_duration_ms`, the
CUT-mode output with zero crossfade is exactly the input length minus the sum
of the cut durations. -/
theorem reassembleCut_length {α : Type} (mix : α → α → α) (audio : List α)
    (cuts : List (Nat × Nat))
    (hwf : ∀ p ∈ cuts, p.1 ≤ p.2 ∧ p.2 ≤ audio.length)
    (hch : List.Chain' (fun p q => p.2 ≤ q.1) cuts) :
    (reassembleCut mix audio cuts 0).length
      = audio.length - ((cuts.map (fun p => p.2 - p.1)).sum) := by
  have h := cutLoop_len mix audio cuts [] 0 hwf hch
    (fun c _ => Nat.zero_le _) (Nat.zero_le _)
  unfold reassembleCut
  obtain ⟨h1, h2⟩ := h
  simp only [List.length_nil, Nat.zero_add, Nat.sub_zero] at h1
  by_cases hlp : (cutLoop mix audio 0 [] 0 cuts).2 < audio.length
  · rw [if_pos hlp, appendSeg_zero, List.length_append, List.length_drop]
    omega
  · rw [if_neg hlp]
    omega

/-- C2 witness: a 10 ms buffer with disjoint cuts `[(2,4),(6,7)]` and zero
crossfade yields an output of length `10 - 3 = 7`. -/
theorem reassembleCut_length_witness :
    ((∀ p ∈ [((2 : Nat), (4 : Nat)), (6, 7)],
        p.1 ≤ p.2 ∧ p.2 ≤ (List.range 10).length) ∧
      List.Chain' (fun p q => p.2 ≤ q.1) [((2 : Nat), (4 : Nat)), (6, 7)]) ∧
    (reassembleCut (fun a b : Nat => a + b) (List.range 10) [(2, 4), (6, 7)] 0).length
      = (List.range 10).length
        - (([((2 : Nat), (4 : Nat)), (6, 7)].map (fun p => p.2 - p.1)).sum) :=
  ⟨⟨by decide, by simp [List.chain'_cons]⟩,
    reassembleCut_length (fun a b : Nat => a + b) (List.range 10) [(2, 4), (6, 7)]
      (by decide) (by simp [List.chain'_cons])⟩

theorem overlaySeg_length {α : Type} (mix : α → α → α) (base patch : List α)
    (pos : Nat) : (overlaySeg mix base patch pos).length = base.length := by
  simp only [overlaySeg, List.length_append, List.length_take,
    List.length_zipWith, List.length_drop]
  omega

theorem beepLoop_length {α : Type} (mix : α → α → α) (beepSample : α) :
    ∀ (cuts : List (Nat × Nat)) (processed : List α),
      (beepLoop mix beepSample processed cuts).length = processed.length := by
  intro cuts
  induction cuts with
  | nil => intro processed; rfl
  | cons p rest ih =>
    intro processed
    obtain ⟨s, e⟩ := p
    by_cases h : e - s < 1
    · rw [beepLoop, if_pos h]
      exact ih processed
    · rw [beepLoop, if_neg h, ih, overlaySeg_length]

/-- C7: BEEP-mode duration invariance — for every audio buffer and every cut
list (whatever its intervals), the BEEP branch returns a buffer of the input's
length, both as the standalone overlay loop and through the full
`process_audio_pydub` call with `debug_beep=True`. -/
theorem beep_mode_length (α : Type) (mix : α → α → α) (beepSample : α)
    (audio : List α) :
    (∀ cuts : List (Nat × Nat),
        (beepLoop mix beepSample audio cuts).length = audio.length) ∧
      (∀ (outputFile : String) (segs : List (Nat × Nat × String))
          (pad lb cf : Nat),
        ((processAudioPydub mix beepSample audio outputFile segs true pad lb cf).2).length
          = audio.length) := by
  refine ⟨fun cuts => beepLoop_length mix beepSample cuts audio, ?_⟩
  intro outputFile segs pad lb cf
  unfold processAudioPydub
  by_cases h : segs.isEmpty
  · rw [if_pos h]
  · rw [if_neg h]
    simp only [if_true]
    exact beepLoop_length mix beepSample _ audio

/-- C10: Empty-detection export format — with no segments to remove,
`process_audio_pydub` exports the original audio as MP3 whatever the output
file name; with at least one segment the format follows the output file's
`.flac`/`.wav` extension, defaulting to MP3. -/
theorem processAudioPydub_export_format (α : Type) (mix : α → α → α)
    (beepSample : α) (audio : List α) (outputFile : String) (debugBeep : Bool)
    (pad lb cf : Nat) :
    processAudioPydub mix beepSample audio outputFile [] debugBeep pad lb cf
        = ("mp3", audio) ∧
      ∀ (t : Nat × Nat × String) (rest : List (Nat × Nat × String)),
        (processAudioPydub mix beepSample audio outputFile (t :: rest) debugBeep pad lb cf).1
          = outFormat outputFile := by
  constructor
  · unfold processAudioPydub
    simp
  · intro t rest
    unfold processAudioPydub
    simp

/-! Helper lemmas about the disfluency selectors. -/

theorem stutterSpec_cons (a b : Word) (rest : List Word) :
    stutterSpec (a :: b :: rest)
      = (if cleanAlnumHyphen a.word ∉ EXCLUSIONS ∧ cleanAlnumHyphen a.word ≠ ""
            ∧ cleanAlnumHyphen a.word = cleanAlnumHyphen b.word
            ∧ b.start_ms - a.end_ms < 200 then
          [(a.start_ms, a.end_ms, "STUTTER: " ++ cleanAlnumHyphen a.word)]
        else []) ++ stutterSpec (b :: rest) := by
  show (List.zip (a :: b :: rest) (b :: rest)).filterMap _
      = _ ++ (List.zip (b :: rest) rest).filterMap _
  rw [List.zip_cons_cons, List.filterMap_cons]
  by_cases hc : cleanAlnumHyphen a.word ∉ EXCLUSIONS ∧ cleanAlnumHyphen a.word ≠ ""
      ∧ cleanAlnumHyphen a.word = cleanAlnumHyphen b.word ∧ b.start_ms - a.end_ms < 200
  · simp only [if_pos hc, List.singleton_append]
  · simp only [if_neg hc, List.nil_append]

theorem stutterScan_eq_spec : ∀ ws : List Word, stutterScan ws = stutterSpec ws := by
  intro ws
  induction ws with
  | nil => rfl
  | cons a tail ih =>
    cases tail with
    | nil => rfl
    | cons b rest =>
      simp only [stutterScan]
      rw [stutterSpec_cons]
      by_cases h1 : cleanAlnumHyphen a.word ∈ EXCLUSIONS
      · rw [if_pos h1, if_neg (fun hc => hc.1 h1), List.nil_append, ih]
      · rw [if_neg h1]
        by_cases h2 : cleanAlnumHyphen a.word ≠ ""
            ∧ cleanAlnumHyphen a.word = cleanAlnumHyphen b.word
            ∧ b.start_ms - a.end_ms < 200
        · rw [if_pos h2, if_pos ⟨h1, h2⟩, List.singleton_append, ih]
        · rw [if_neg h2, if_neg (fun hc => h2 ⟨hc.2.1, hc.2.2⟩),
            List.nil_append, ih]

/-- C5 (amended): `find_stutters` flags word `a`'s span exactly when `a`'s
normalized form — alphanumeric and hyphen characters retained, with NO case
folding (inputs reach it already lower-cased by `transcribe_audio`) — is not
in `{a, and, the}`, is non-empty, equals the next word's normalized form, and
the gap is below 200 ms; in particular `[("the",0,300),("the",310,600)]`
yields no stutter because the exclusion applies before the repetition check.
-/
theorem findStutters_characterization :
    (∀ segments : List (List Word),
        findStutters segments = stutterSpec segments.flatten) ∧
      findStutters [[⟨"the", 0, 300⟩, ⟨"the", 310, 600⟩]] = [] := by
  exact ⟨fun segments => stutterScan_eq_spec segments.flatten, rfl⟩

/-- C5 counterexample: on the word sequence `[("The",0,300),("The",310,600)]`
the code flags the span `(0,300)` (its normalization keeps the capital `T`,
so `"The"` escapes the exclusion set), while the claim's lower-cased
normalization rule predicts no flagged span — the claimed characterization is
false as stated. -/
theorem findStutters_case_mismatch :
    (findStutters [[⟨"The", 0, 300⟩, ⟨"The", 310, 600⟩]]).map
        (fun t => (t.1, t.2.1)) = [(0, 300)]
      ∧ stutterSpecLower [⟨"The", 0, 300⟩, ⟨"The", 310, 600⟩] = [] := by
  exact ⟨rfl, by decide⟩

theorem fillerCheck_excluded (fillerList : List String) (w : Word)
    (h : w.word = "a" ∨ w.word = "and" ∨ w.word = "the") :
    fillerCheck fillerList w = none := by
  obtain ⟨wd, s, e⟩ := w
  dsimp only at h
  rcases h with rfl | rfl | rfl <;> rfl

/-- C6: Exclusion safety — a transcript whose words all read `a`, `and` or
`the` produces no detected fillers, whatever the filler list contains. -/
theorem findFillers_exclusion_safety (segments : List (List Word))
    (fillerList : List String)
    (h : ∀ w ∈ segments.flatten, w.word = "a" ∨ w.word = "and" ∨ w.word = "the") :
    findFillers segments fillerList = [] := by
  unfold findFillers
  rw [List.filterMap_eq_nil]
  exact fun w hw => fillerCheck_excluded fillerList w (h w hw)

/-- C6 witness: a transcript of exactly `a`, `and`, `the` with a filler list
that even contains those words still detects nothing. -/
theorem findFillers_exclusion_safety_witness :
    (∀ w ∈ ([[⟨"a", 0, 100⟩, ⟨"and", 200, 300⟩, ⟨"the", 400, 500⟩]]
        : List (List Word)).flatten,
      w.word = "a" ∨ w.word = "and" ∨ w.word = "the") ∧
      findFillers [[⟨"a", 0, 100⟩, ⟨"and", 200, 300⟩, ⟨"the", 400, 500⟩]]
        ["a", "and", "the", "um"] = [] :=
  ⟨by decide, findFillers_exclusion_safety _ _ (by decide)⟩

/-! Helper lemmas about the `filler_remover16` splice loop. -/

theorem take_append_pySlice {α : Type} (a : List α) {l r : Nat} (h : l ≤ r) :
    a.take l ++ pySlice a l r = a.take r := by
  unfold pySlice
  conv_rhs => rw [← List.take_append_drop l (a.take r)]
  rw [List.take_take, Nat.min_eq_left h]

theorem okWords_mono {lastA lastB : Nat} (ws : List Word)
    (hle : lastB ≤ lastA) (h : okWords lastA ws = true) :
    okWords lastB ws = true := by
  cases ws with
  | nil => rfl
  | cons w rest =>
    simp only [okWords, Bool.and_eq_true, decide_eq_true_eq] at h ⊢
    exact ⟨⟨Nat.le_trans hle h.1.1, h.1.2⟩, h.2⟩

theorem editLoop_take {α : Type} (audio : List α) (sel : Nat → Bool) :
    ∀ (ws : List Word) (i lastKept : Nat), okWords lastKept ws = true →
      ∃ last', editLoop audio sel i (audio.take lastKept) lastKept ws
        = (audio.take last', last') := by
  intro ws
  induction ws with
  | nil => exact fun i lastKept _ => ⟨lastKept, rfl⟩
  | cons w rest ih =>
    intro i lastKept hok
    simp only [okWords, Bool.and_eq_true, decide_eq_true_eq] at hok
    obtain ⟨⟨hls, hse⟩, hrest⟩ := hok
    simp only [editLoop]
    by_cases hsel : sel i
    · rw [if_pos hsel]
      exact ih (i + 1) lastKept (okWords_mono rest (Nat.le_trans hls hse) hrest)
    · rw [if_neg hsel]
      rw [take_append_pySlice audio hls, take_append_pySlice audio hse]
      exact ih (i + 1) w.end_ms hrest

/-- C1 (code divergence): the splice loop of `process_edited_audio` returns
the input audio unchanged for EVERY audio buffer and EVERY selection — the
`pass` branch never advances `last_kept_end_ms`, so a selected word's span is
swallowed into the next kept word's silent gap (or the trailing span), and
nothing is ever removed.  This contradicts the function's own docstring, its
inline comments and its success log message. -/
theorem spliceEdited_eq_input {α : Type} (audio : List α) (sel : Nat → Bool) :
    spliceEdited audio sel = audio := by
  unfold spliceEdited
  obtain ⟨last', heq⟩ :=
    editLoop_take audio sel MOCK_TRANSCRIPT_DATA 0 0 (by decide)
  rw [List.take_zero] at heq
  rw [heq]
  by_cases h : last' < audio.length
  · rw [if_pos h]
    exact List.take_append_drop last' audio
  · rw [if_neg h]
    exact List.take_of_length_le (Nat.le_of_not_lt h)

/-! Helper results about the `process_edited_audio` error handling. -/

/-- C8 (amended): when `json.loads` fails on the selected-indices string, the
function catches the decode error, returns the parse-failure message, raises
nothing and writes no output file. -/
theorem processEditedAudio_decode_error {α : Type}
    (jloads : String → Except String JVal) (audioLoad : Except String (List α))
    (s msg : String) (h : jloads s = .error msg) :
    processEditedAudio jloads audioLoad true s
      = .returned none "Error: Could not parse selected words." := by
  unfold processEditedAudio
  rw [h]
  simp

/-- C8 witness: a decode failure on the non-JSON string `not json` yields the
parse-failure message and no output. -/
theorem processEditedAudio_decode_error_witness :
    (fun _ : String =>
        (Except.error "Expecting value: line 1 column 1 (char 0)"
          : Except String JVal)) "not json"
      = .error "Expecting value: line 1 column 1 (char 0)" ∧
      processEditedAudio
        (fun _ : String =>
          (Except.error "Expecting value: line 1 column 1 (char 0)"
            : Except String JVal))
        (Except.ok ([] : List Nat)) true "not json"
      = .returned none "Error: Could not parse selected words." :=
  ⟨rfl, processEditedAudio_decode_error _ _ _ _ rfl⟩

/-- C8 counterexample: the string `["a"]` is not a parsable list of integer
indices, yet `process_edited_audio` does not return an error message for it —
`json.loads` succeeds, and the uncaught `int("a")` failure escapes the
function (only `json.JSONDecodeError` is caught), contradicting the claim
that no exception is raised for every unparsable index list. -/
theorem processEditedAudio_nonint_raises :
    processEditedAudio jloadsStub (Except.ok ([] : List Nat)) true "[\"a\"]"
      = .raised "int() conversion failed: uncaught ValueError" none := by
  rfl
